import Mathlib

/-!
Verification of the control-loop and step-response engines of the
`controls-study` repository.

The PID walking engine (`controls_study/controls/pid_walking.py`) is embedded
over `ℚ`: the Python floats only undergo field operations there, so exact
rational arithmetic is the natural shallow embedding.  The module-level
constants (`DESIRED_LOCATION`, `STARTING_POINT`, `K_P`, `K_I`, `K_D`, `DT`,
`T_MAX`) become fields of a configuration record, as the spec treats them as
the configuration of a run.

The second-order mass-spring-damper quantities
(`controls_study/dynamic_systems/mass_spring_damper.py` and
`src/practice/mass_spring_damper.py`) involve square roots, exponentials and
trigonometric functions, so they are embedded over `ℝ`.
-/

namespace ControlsStudy

/-- Configuration of one PID run.  Field `target` is `DESIRED_LOCATION`,
`start` is `STARTING_POINT`; `K_P`, `K_I`, `K_D` are the gains; `dt` is `DT`
and `T_max` is `T_MAX`. -/
structure PIDConfig where
  target : ℚ
  start : ℚ
  K_P : ℚ
  K_I : ℚ
  K_D : ℚ
  dt : ℚ
  T_max : ℚ

/-- Function `pid_controller(error, integral, prev_error, dt)` of
`pid_walking.py`:
```
proportional = K_P * error
integral += error * dt
derivative = K_D * (error - prev_error) / dt
output = proportional + K_I * integral + derivative
return output, integral
```
The module-level gains are passed explicitly. -/
def pid_controller (Kp Ki Kd error integral prev_error dt : ℚ) : ℚ × ℚ :=
  let proportional := Kp * error
  let integral2 := integral + error * dt
  let derivative := Kd * (error - prev_error) / dt
  let output := proportional + Ki * integral2 + derivative
  (output, integral2)

/-- Loop-carried state of `simulate_pid_control`: the current position, the
accumulated integral and the previous error. -/
structure LoopState where
  position : ℚ
  integral : ℚ
  prev_error : ℚ

/-- State before frame 0: `position` holds the starting point (the code
zero-initialises the position array and has `STARTING_POINT = 0`),
`integral` is `0.0` and `prev_error` is `DESIRED_LOCATION - STARTING_POINT`. -/
def initState (cfg : PIDConfig) : LoopState :=
  { position := cfg.start
    integral := 0
    prev_error := cfg.target - cfg.start }

/-- One iteration of the `for i in range(num_frames)` loop of
`simulate_pid_control`: compute `error[i] = DESIRED_LOCATION - position[i]`,
run `pid_controller`, set `velocity[i]` to the control output, advance
`position[i+1] = position[i] + velocity[i] * DT`, and record
`prev_error = error[i]`. -/
def stepState (cfg : PIDConfig) (s : LoopState) : LoopState :=
  let e := cfg.target - s.position
  let oi := pid_controller cfg.K_P cfg.K_I cfg.K_D e s.integral s.prev_error cfg.dt
  { position := s.position + oi.1 * cfg.dt
    integral := oi.2
    prev_error := e }

/-- Loop state at the start of frame `i`. -/
def stateAt (cfg : PIDConfig) : ℕ → LoopState
  | 0 => initState cfg
  | n + 1 => stepState cfg (stateAt cfg n)

/-- Recorded `position[i]`: the loop only ever writes `position[i+1]` from
the state after frame `i`, so the value at index `i` is the position
component of the state at frame `i`. -/
def positionAt (cfg : PIDConfig) (i : ℕ) : ℚ := (stateAt cfg i).position

/-- Recorded `error[i] = DESIRED_LOCATION - position[i]`. -/
def errorAt (cfg : PIDConfig) (i : ℕ) : ℚ := cfg.target - positionAt cfg i

/-- Recorded `velocity[i]`: the control output of `pid_controller` at
frame `i`. -/
def velocityAt (cfg : PIDConfig) (i : ℕ) : ℚ :=
  (pid_controller cfg.K_P cfg.K_I cfg.K_D (errorAt cfg i) (stateAt cfg i).integral
    (stateAt cfg i).prev_error cfg.dt).1

/-- Embedding of `np.arange(0, stop, step)`: the values `0, step, 2*step, ...`
strictly below `stop`; its length is `ceil(stop/step)` clamped to `0`.
A zero step raises `ZeroDivisionError` in numpy, modelled as `none`. -/
def arange (stop step : ℚ) : Option (List ℚ) :=
  if step = 0 then none
  else some ((List.range (Int.ceil (stop / step)).toNat).map (fun i : ℕ => (i : ℚ) * step))

/-- Frame count of a run: `len(np.arange(0, T_MAX, DT))`, that is
`ceil(T_max/dt)` clamped to `0`. -/
def numFrames (cfg : PIDConfig) : ℕ := (Int.ceil (cfg.T_max / cfg.dt)).toNat

/-- Embedding of `simulate_pid_control()`: returns the four recorded arrays
`(t, position, velocity, error)`; `none` when `np.arange` fails (zero `DT`). -/
def simulate_pid_control (cfg : PIDConfig) : Option (List ℚ × List ℚ × List ℚ × List ℚ) :=
  match arange cfg.T_max cfg.dt with
  | none => none
  | some t =>
      some (t, (List.range t.length).map (positionAt cfg),
               (List.range t.length).map (velocityAt cfg),
               (List.range t.length).map (errorAt cfg))

/-! Second-order mass-spring-damper engine.  The modal quantities and the
classification branch are embedded from
`controls_study/dynamic_systems/mass_spring_damper.py`; the step response of
`src/practice/mass_spring_damper.py` is modelled below. -/

noncomputable section

/-- Natural frequency `omega_n = np.sqrt(k / m)` of `mass_spring_damper.py`
(the hard-coded parameters `m`, `k` become arguments). -/
def omega_n (m k : ℝ) : ℝ := Real.sqrt (k / m)

/-- Damping ratio `zeta = b / (2 * np.sqrt(m * k))` of
`mass_spring_damper.py`. -/
def zeta (m b k : ℝ) : ℝ := b / (2 * Real.sqrt (m * k))

open Classical in
/-- Damped natural frequency
`omega_d = omega_n * np.sqrt(1 - zeta**2) if zeta < 1 else 0` of
`mass_spring_damper.py`. -/
def omega_d (m b k : ℝ) : ℝ :=
  if zeta m b k < 1 then omega_n m k * Real.sqrt (1 - zeta m b k ^ 2) else 0

/-- Damping classification labels of the equations panel of
`mass_spring_damper.py`. -/
inductive DampingClass where
  | underdamped
  | criticallyDamped
  | overdamped
  deriving DecidableEq

open Classical in
/-- Classification branch of the equations panel of `mass_spring_damper.py`:
the underdamped line (reporting `omega_d`) is emitted when `zeta < 1`;
otherwise the label is `critically damped` if `abs(zeta - 1) < 1e-6`, else
`overdamped`. -/
def classifyDamping (z : ℝ) : DampingClass :=
  if z < 1 then DampingClass.underdamped
  else if |z - 1| < 1 / 1000000 then DampingClass.criticallyDamped
  else DampingClass.overdamped

/-- Modelled from the spec: the displacement of
`src/practice/mass_spring_damper.py` is produced by `scipy.signal.step`
(an external library; its solver is not part of the repository), applied to
the transfer function `1 / (m s^2 + b s + k)` with `m = 1`, `b = 4`,
`k = 20`.  The spec accepts any method that matches the exact unit-step
response of that transfer function, so the displacement is modelled by the
closed form of that response.  The lemmas `hasDerivAt_x_step` and
`hasDerivAt_v_step` and the claim theorem prove that this function is that
step response: it satisfies `1*a + 4*v + 20*x = 1` with `x 0 = 0` and
`v 0 = 0`. -/
def x_step (t : ℝ) : ℝ :=
  (1 - Real.exp (-2 * t) * (Real.cos (4 * t) + 1 / 2 * Real.sin (4 * t))) / 20

/-- First derivative (velocity) of the modelled step response. -/
def v_step (t : ℝ) : ℝ := 1 / 4 * (Real.exp (-2 * t) * Real.sin (4 * t))

/-- Second derivative (acceleration) of the modelled step response. -/
def a_step (t : ℝ) : ℝ :=
  Real.exp (-2 * t) * (Real.cos (4 * t) - 1 / 2 * Real.sin (4 * t))

end

/-! Helper lemmas about the loop state. -/

lemma positionAt_succ (cfg : PIDConfig) (i : ℕ) :
    positionAt cfg (i + 1) = positionAt cfg i + velocityAt cfg i * cfg.dt := rfl

lemma prev_error_at (cfg : PIDConfig) (i : ℕ) :
    (stateAt cfg i).prev_error =
      if i = 0 then cfg.target - cfg.start else errorAt cfg (i - 1) := by
  cases i with
  | zero => rfl
  | succ n => simp only [stateAt, stepState, pid_controller]; rfl

lemma integral_at (cfg : PIDConfig) (i : ℕ) :
    (stateAt cfg i).integral = ∑ j ∈ Finset.range i, errorAt cfg j * cfg.dt := by
  induction i with
  | zero => simp [stateAt, initState]
  | succ n ih =>
      rw [Finset.sum_range_succ, ← ih]
      simp only [stateAt, stepState, pid_controller]
      rfl

lemma velocityAt_eq (cfg : PIDConfig) (i : ℕ) :
    velocityAt cfg i = cfg.K_P * errorAt cfg i
      + cfg.K_I * (∑ j ∈ Finset.range (i + 1), errorAt cfg j * cfg.dt)
      + cfg.K_D * (errorAt cfg i -
          (if i = 0 then cfg.target - cfg.start else errorAt cfg (i - 1))) / cfg.dt := by
  rw [velocityAt, pid_controller, ← prev_error_at]
  simp only
  rw [integral_at, Finset.sum_range_succ]

lemma getD_range_map (f : ℕ → ℚ) {N i : ℕ} (h : i < N) :
    (((List.range N).map f).getD i 0) = f i := by
  rw [List.getD_eq_getElem?_getD, List.getElem?_map, List.getElem?_range h]
  rfl

lemma simulate_eq (cfg : PIDConfig) (h : cfg.dt ≠ 0) :
    simulate_pid_control cfg =
      some ((List.range (numFrames cfg)).map (fun i : ℕ => (i : ℚ) * cfg.dt),
            (List.range (numFrames cfg)).map (positionAt cfg),
            (List.range (numFrames cfg)).map (velocityAt cfg),
            (List.range (numFrames cfg)).map (errorAt cfg)) := by
  simp only [simulate_pid_control, arange, if_neg h, numFrames, List.length_map,
    List.length_range]

example : positionAt ⟨50, 0, 1/10, 0, 0, 1, 2⟩ 1 = 5 := by
  norm_num [positionAt, stateAt, initState, stepState, pid_controller]

example : velocityAt ⟨50, 0, 1/10, 0, 0, 1, 2⟩ 1 = 9/2 := by
  norm_num [velocityAt, errorAt, positionAt, stateAt, initState, stepState, pid_controller]

example : numFrames ⟨50, 0, 1/10, 0, 0, 1/20, 40⟩ = 800 := by
  norm_num [numFrames]
  rfl

/-- Claim C1: for every frame `i` of a PID run, the recorded sequences
satisfy the loop recurrence: `error[i] = target - position[i]`;
`velocity[i]` is the controller output
`Kp*error[i] + Ki*integral + Kd*(error[i] - previous_error)/dt`, where
the integral is the running sum of `error[j]*dt` for `j <= i` and the
previous error is `target - start` at frame 0 and `error[i-1]` afterwards;
and `position[i+1] = position[i] + velocity[i]*dt` whenever `i+1` is still
a frame of the run. -/
theorem pid_run_recurrence (cfg : PIDConfig) (t p v e : List ℚ) (i : ℕ)
    (hrun : simulate_pid_control cfg = some (t, p, v, e)) (hi : i < e.length) :
    e.getD i 0 = cfg.target - p.getD i 0 ∧
    v.getD i 0 = cfg.K_P * e.getD i 0
      + cfg.K_I * (∑ j ∈ Finset.range (i + 1), e.getD j 0 * cfg.dt)
      + cfg.K_D * (e.getD i 0 -
          (if i = 0 then cfg.target - cfg.start else e.getD (i - 1) 0)) / cfg.dt ∧
    (i + 1 < p.length → p.getD (i + 1) 0 = p.getD i 0 + v.getD i 0 * cfg.dt) := by
  have hdt : cfg.dt ≠ 0 := by
    intro h0
    rw [simulate_pid_control, arange, if_pos h0] at hrun
    exact Option.noConfusion hrun
  rw [simulate_eq cfg hdt] at hrun
  simp only [Option.some.injEq, Prod.mk.injEq] at hrun
  obtain ⟨ht, hp, hv, he⟩ := hrun
  subst ht hp hv he
  simp only [List.length_map, List.length_range] at hi ⊢
  have hi1 : i - 1 < numFrames cfg := lt_of_le_of_lt (Nat.pred_le i) hi
  rw [getD_range_map _ hi, getD_range_map _ hi, getD_range_map _ hi,
    getD_range_map _ hi1]
  refine ⟨rfl, ?_, ?_⟩
  · have hsum : (∑ j ∈ Finset.range (i + 1),
        ((List.range (numFrames cfg)).map (errorAt cfg)).getD j 0 * cfg.dt)
        = ∑ j ∈ Finset.range (i + 1), errorAt cfg j * cfg.dt := by
      refine Finset.sum_congr rfl fun j hj => ?_
      rw [getD_range_map _ (lt_of_lt_of_le (Finset.mem_range.mp hj) hi)]
    rw [hsum, velocityAt_eq]
  · intro hlt
    rw [getD_range_map _ hlt, positionAt_succ]

/-- Witness for C1 at the run with `target = 50`, `start = 0`, `Kp = 1/10`,
`dt = 1`, `T_max = 2` (two frames), at frame 0. -/
theorem pid_run_recurrence_witness :
    ([50, 45] : List ℚ).getD 0 0 = 50 - ([0, 5] : List ℚ).getD 0 0 ∧
    ([5, 9/2] : List ℚ).getD 0 0 = 1/10 * ([50, 45] : List ℚ).getD 0 0
      + 0 * (∑ j ∈ Finset.range 1, ([50, 45] : List ℚ).getD j 0 * 1)
      + 0 * (([50, 45] : List ℚ).getD 0 0 -
          (if (0 : ℕ) = 0 then (50 : ℚ) - 0 else ([50, 45] : List ℚ).getD 0 0)) / 1 ∧
    (1 < ([0, 5] : List ℚ).length →
      ([0, 5] : List ℚ).getD 1 0 =
        ([0, 5] : List ℚ).getD 0 0 + ([5, 9/2] : List ℚ).getD 0 0 * 1) := by
  have hrun : simulate_pid_control ⟨50, 0, 1/10, 0, 0, 1, 2⟩ =
      some ([0, 1], [0, 5], [5, 9/2], [50, 45]) := by
    rw [simulate_eq _ (by norm_num)]
    have hN : numFrames ⟨50, 0, 1/10, 0, 0, 1, 2⟩ = 2 := by
      norm_num [numFrames]
      rfl
    rw [hN, show List.range 2 = [0, 1] from rfl]
    simp only [List.map_cons, List.map_nil]
    norm_num [positionAt, velocityAt, errorAt, stateAt, initState, stepState,
      pid_controller]
  exact pid_run_recurrence _ _ _ _ _ 0 hrun (by norm_num)

/-- Claim C2: for every valid configuration (`dt > 0`, `T_max > 0`) the PID
engine returns four sequences of equal length `N = ceil(T_max/dt)` with
`time[i] = i*dt`, so the timestamps are strictly increasing and evenly
spaced by `dt`. -/
theorem pid_run_shape (cfg : PIDConfig) (hdt : 0 < cfg.dt) (hT : 0 < cfg.T_max) :
    ∃ t p v e : List ℚ, simulate_pid_control cfg = some (t, p, v, e) ∧
      t.length = numFrames cfg ∧ 0 < numFrames cfg ∧
      p.length = t.length ∧ v.length = t.length ∧ e.length = t.length ∧
      (∀ i, i < t.length → t.getD i 0 = (i : ℚ) * cfg.dt) ∧
      (∀ i, i + 1 < t.length →
        t.getD (i + 1) 0 - t.getD i 0 = cfg.dt ∧ t.getD i 0 < t.getD (i + 1) 0) := by
  refine ⟨_, _, _, _, simulate_eq cfg (ne_of_gt hdt), by simp, ?_, by simp, by simp,
    by simp, ?_, ?_⟩
  · have hpos : (0 : ℤ) < Int.ceil (cfg.T_max / cfg.dt) :=
      Int.ceil_pos.mpr (div_pos hT hdt)
    rw [numFrames]
    omega
  · intro i hi
    simp only [List.length_map, List.length_range] at hi
    rw [getD_range_map _ hi]
  · intro i hi
    simp only [List.length_map, List.length_range] at hi
    have hi0 : i < numFrames cfg := Nat.lt_of_succ_lt hi
    rw [getD_range_map _ hi, getD_range_map _ hi0]
    constructor
    · push_cast
      ring
    · have hlt : (i : ℚ) < ((i : ℕ) + 1 : ℕ) := by push_cast; linarith
      calc (i : ℚ) * cfg.dt < (((i : ℕ) + 1 : ℕ) : ℚ) * cfg.dt :=
            mul_lt_mul_of_pos_right hlt hdt
        _ = _ := by push_cast; ring

/-- Witness for C2 at `dt = 1 > 0`, `T_max = 2 > 0`. -/
theorem pid_run_shape_witness :
    ∃ t p v e : List ℚ,
      simulate_pid_control ⟨50, 0, 1/10, 0, 0, 1, 2⟩ = some (t, p, v, e) ∧
      t.length = numFrames ⟨50, 0, 1/10, 0, 0, 1, 2⟩ ∧
      0 < numFrames ⟨50, 0, 1/10, 0, 0, 1, 2⟩ ∧
      p.length = t.length ∧ v.length = t.length ∧ e.length = t.length ∧
      (∀ i, i < t.length → t.getD i 0 = (i : ℚ) * 1) ∧
      (∀ i, i + 1 < t.length →
        t.getD (i + 1) 0 - t.getD i 0 = 1 ∧ t.getD i 0 < t.getD (i + 1) 0) :=
  pid_run_shape _ (by norm_num) (by norm_num)

/-- Claim C3: before frame 0, `previous_error` is pre-seeded to
`target - start` (for a nonzero initial error this is not zero), and the
first-frame derivative term is computed against that initial error rather
than against zero. -/
theorem pid_prev_error_seed (cfg : PIDConfig) (hne : cfg.target ≠ cfg.start) :
    (stateAt cfg 0).prev_error = cfg.target - cfg.start ∧
    (stateAt cfg 0).prev_error ≠ 0 ∧
    velocityAt cfg 0 = cfg.K_P * errorAt cfg 0 + cfg.K_I * (errorAt cfg 0 * cfg.dt)
      + cfg.K_D * (errorAt cfg 0 - (cfg.target - cfg.start)) / cfg.dt := by
  refine ⟨rfl, sub_ne_zero.mpr hne, ?_⟩
  rw [velocityAt_eq]
  simp [Finset.sum_range_one]

/-- Witness for C3 at `target = 50`, `start = 0`, with a nonzero `Kd`. -/
theorem pid_prev_error_seed_witness :
    (stateAt ⟨50, 0, 1/10, 1/100, 2, 1/20, 40⟩ 0).prev_error = 50 - 0 ∧
    (stateAt ⟨50, 0, 1/10, 1/100, 2, 1/20, 40⟩ 0).prev_error ≠ 0 ∧
    velocityAt ⟨50, 0, 1/10, 1/100, 2, 1/20, 40⟩ 0 =
      1/10 * errorAt ⟨50, 0, 1/10, 1/100, 2, 1/20, 40⟩ 0
      + 1/100 * (errorAt ⟨50, 0, 1/10, 1/100, 2, 1/20, 40⟩ 0 * (1/20))
      + 2 * (errorAt ⟨50, 0, 1/10, 1/100, 2, 1/20, 40⟩ 0 - (50 - 0)) / (1/20) :=
  pid_prev_error_seed _ (by norm_num)

/-- Claim C10: for every gain setting, the derivative term of frame 0
vanishes, because `error[0] = target - start` equals the pre-seeded
`previous_error`; hence the frame-0 control output is
`Kp*error[0] + Ki*error[0]*dt` regardless of `Kd`. -/
theorem pid_first_frame_output (cfg : PIDConfig) :
    cfg.K_D * (errorAt cfg 0 - (stateAt cfg 0).prev_error) / cfg.dt = 0 ∧
    velocityAt cfg 0 = cfg.K_P * (cfg.target - cfg.start)
      + cfg.K_I * ((cfg.target - cfg.start) * cfg.dt) := by
  have he0 : errorAt cfg 0 = cfg.target - cfg.start := rfl
  have hprev : (stateAt cfg 0).prev_error = cfg.target - cfg.start := rfl
  constructor
  · rw [he0, hprev, sub_self, mul_zero, zero_div]
  · rw [velocityAt_eq, he0, if_pos rfl, sub_self, mul_zero, zero_div, add_zero,
      Finset.sum_range_one, he0]

/-- Claim C6: with all three gains zero, the velocity is zero at every frame
and the position stays at the start for every frame. -/
theorem pid_zero_gains (cfg : PIDConfig) (hp : cfg.K_P = 0) (hi : cfg.K_I = 0)
    (hd : cfg.K_D = 0) (i : ℕ) :
    velocityAt cfg i = 0 ∧ positionAt cfg i = cfg.start := by
  have hv : ∀ j, velocityAt cfg j = 0 := by
    intro j
    rw [velocityAt_eq, hp, hi, hd]
    ring
  refine ⟨hv i, ?_⟩
  induction i with
  | zero => rfl
  | succ n ih => rw [positionAt_succ, hv n, ih, zero_mul, add_zero]

/-- Witness for C6 at frame 2 of an all-zero-gain run. -/
theorem pid_zero_gains_witness :
    velocityAt ⟨50, 0, 0, 0, 0, 1/20, 40⟩ 2 = 0 ∧
    positionAt ⟨50, 0, 0, 0, 0, 1/20, 40⟩ 2 = 0 :=
  pid_zero_gains _ rfl rfl rfl 2

/-- Claim C5 fails as stated: with `Kp = 100 > 0`, `dt = 1/20`
(so `Kp*dt = 5`), `Ki = Kd = 0` and initial error `50 ≠ 0`, the run has
`800` frames but the recorded error grows in magnitude from frame 0 to
frame 1 (`|error[1]| = 200 > 50 = |error[0]|`), so the error sequence is
not strictly decreasing in magnitude. -/
theorem pid_p_only_divergence_cex :
    (0 : ℚ) < 100 ∧ 1 < numFrames ⟨50, 0, 100, 0, 0, 1/20, 40⟩ ∧
    errorAt ⟨50, 0, 100, 0, 0, 1/20, 40⟩ 0 ≠ 0 ∧
    |errorAt ⟨50, 0, 100, 0, 0, 1/20, 40⟩ 0| < |errorAt ⟨50, 0, 100, 0, 0, 1/20, 40⟩ 1| := by
  have h0 : errorAt ⟨50, 0, 100, 0, 0, 1/20, 40⟩ 0 = 50 := by
    norm_num [errorAt, positionAt, stateAt, initState]
  have h1 : errorAt ⟨50, 0, 100, 0, 0, 1/20, 40⟩ 1 = -200 := by
    norm_num [errorAt, positionAt, stateAt, initState, stepState, pid_controller]
  refine ⟨by norm_num, ?_, ?_, ?_⟩
  · norm_num [numFrames]
  · rw [h0]
    norm_num
  · rw [h0, h1]
    rw [abs_of_nonneg (by norm_num), abs_of_nonpos (by norm_num)]
    norm_num

/-- Claim C5 amended: add the stability condition `|1 - Kp*dt| < 1` with
`Kp*dt ≠ 1` (the claim as frozen holds for no gain bound; with `Kp*dt >= 2`
the error diverges and with `Kp*dt = 1` it is identically zero from frame 1
on).  Under it, the recorded error satisfies
`error[i+1] = error[i]*(1 - Kp*dt)` for every `i` (this recurrence needs no
stability condition), its magnitude is strictly decreasing, and
`position[N-1]` approaches `target` as the frame count `N` grows. -/
theorem pid_p_only_convergence (cfg : PIDConfig)
    (hKi : cfg.K_I = 0) (hKd : cfg.K_D = 0) (_hKp : 0 < cfg.K_P)
    (he0 : cfg.target ≠ cfg.start)
    (hstab : |1 - cfg.K_P * cfg.dt| < 1) (hone : cfg.K_P * cfg.dt ≠ 1) :
    (∀ i, errorAt cfg (i + 1) = errorAt cfg i * (1 - cfg.K_P * cfg.dt)) ∧
    (∀ i, |errorAt cfg (i + 1)| < |errorAt cfg i|) ∧
    (∀ ε : ℚ, 0 < ε → ∃ M, ∀ N, M ≤ N → |positionAt cfg (N - 1) - cfg.target| < ε) := by
  have hrec : ∀ i, errorAt cfg (i + 1) = errorAt cfg i * (1 - cfg.K_P * cfg.dt) := by
    intro i
    have hv : velocityAt cfg i = cfg.K_P * errorAt cfg i := by
      rw [velocityAt_eq, hKi, hKd]
      ring
    rw [errorAt, positionAt_succ, hv]
    rw [errorAt]
    ring
  have hpow : ∀ i, errorAt cfg i = errorAt cfg 0 * (1 - cfg.K_P * cfg.dt) ^ i := by
    intro i
    induction i with
    | zero => ring
    | succ n ih =>
        rw [hrec n, ih]
        ring
  have he0ne : errorAt cfg 0 ≠ 0 := sub_ne_zero.mpr he0
  have hrne : (1 - cfg.K_P * cfg.dt) ≠ 0 := by
    intro hz
    exact hone (by linarith)
  have hene : ∀ i, errorAt cfg i ≠ 0 := fun i => by
    rw [hpow i]
    exact mul_ne_zero he0ne (pow_ne_zero i hrne)
  refine ⟨hrec, ?_, ?_⟩
  · intro i
    rw [hrec i, abs_mul]
    have hpos : 0 < |errorAt cfg i| := abs_pos.mpr (hene i)
    calc |errorAt cfg i| * |1 - cfg.K_P * cfg.dt| < |errorAt cfg i| * 1 :=
          mul_lt_mul_of_pos_left hstab hpos
      _ = |errorAt cfg i| := mul_one _
  · intro ε hε
    have habs : 0 < |errorAt cfg 0| := abs_pos.mpr he0ne
    obtain ⟨n, hn⟩ := exists_pow_lt_of_lt_one (div_pos hε habs) hstab
    refine ⟨n + 1, fun N hN => ?_⟩
    have h1 : |positionAt cfg (N - 1) - cfg.target| = |errorAt cfg (N - 1)| := by
      rw [errorAt, abs_sub_comm]
    rw [h1, hpow (N - 1), abs_mul, abs_pow]
    have hmono : |1 - cfg.K_P * cfg.dt| ^ (N - 1) ≤ |1 - cfg.K_P * cfg.dt| ^ n :=
      pow_le_pow_of_le_one (abs_nonneg _) (le_of_lt hstab) (by omega)
    calc |errorAt cfg 0| * |1 - cfg.K_P * cfg.dt| ^ (N - 1)
        ≤ |errorAt cfg 0| * |1 - cfg.K_P * cfg.dt| ^ n :=
          mul_le_mul_of_nonneg_left hmono (abs_nonneg _)
      _ < |errorAt cfg 0| * (ε / |errorAt cfg 0|) := mul_lt_mul_of_pos_left hn habs
      _ = ε := by field_simp

/-- Witness for the amended C5 at `Kp = 1/10`, `dt = 1/20`
(so `Kp*dt = 1/200`), instantiated at frame 0. -/
theorem pid_p_only_convergence_witness :
    errorAt ⟨50, 0, 1/10, 0, 0, 1/20, 40⟩ 1
      = errorAt ⟨50, 0, 1/10, 0, 0, 1/20, 40⟩ 0 * (1 - 1/10 * (1/20)) ∧
    |errorAt ⟨50, 0, 1/10, 0, 0, 1/20, 40⟩ 1| < |errorAt ⟨50, 0, 1/10, 0, 0, 1/20, 40⟩ 0| := by
  have h := pid_p_only_convergence ⟨50, 0, 1/10, 0, 0, 1/20, 40⟩ rfl rfl
    (by norm_num) (by norm_num) (by rw [abs_of_nonneg] <;> norm_num) (by norm_num)
  exact ⟨h.1 0, h.2.1 0⟩

/-- Claim C4 fails as stated: with `dt = -1/20 <= 0` the PID engine raises
no configuration error; `np.arange` yields an empty time grid and the run
completes normally, returning four (empty) output sequences. -/
theorem pid_negative_dt_runs_cex :
    simulate_pid_control ⟨50, 0, 1/10, 0, 0, -1/20, 40⟩ = some ([], [], [], []) := by
  rw [simulate_eq _ (by norm_num)]
  have hN : numFrames ⟨50, 0, 1/10, 0, 0, -1/20, 40⟩ = 0 := by
    norm_num [numFrames]
    exact Int.ceil_le.mpr (by norm_num)
  rw [hN]
  simp

/-- Claim C4 amended: the engines perform no configuration validation.  For
`dt = 0` the PID run fails only because `np.arange` raises a division error
before the loop; for `dt < 0` no error is reported and the run returns four
empty sequences.  (The second-order engine likewise never checks `m`; its
parameters are hard-coded positive constants.) -/
theorem pid_no_config_validation (cfg : PIDConfig) (hT : 0 < cfg.T_max) :
    (cfg.dt = 0 → simulate_pid_control cfg = none) ∧
    (cfg.dt < 0 → simulate_pid_control cfg = some ([], [], [], [])) := by
  constructor
  · intro h0
    rw [simulate_pid_control, arange, if_pos h0]
  · intro hneg
    rw [simulate_eq cfg (ne_of_lt hneg)]
    have hceil : Int.ceil (cfg.T_max / cfg.dt) ≤ 0 := by
      rw [show (0 : ℤ) = ((0 : ℤ) : ℤ) from rfl, Int.ceil_le]
      push_cast
      exact le_of_lt (div_neg_of_pos_of_neg hT hneg)
    have hN : numFrames cfg = 0 := by
      rw [numFrames]
      omega
    rw [hN]
    simp

/-- Witness for the amended C4 at `dt = -1 < 0`, `T_max = 40 > 0`. -/
theorem pid_no_config_validation_witness :
    simulate_pid_control ⟨50, 0, 1/10, 0, 0, -1, 40⟩ = some ([], [], [], []) :=
  (pid_no_config_validation _ (by norm_num)).2 (by norm_num)

/-! Helper lemmas for the second-order engine. -/

lemma classifyDamping_of_lt {z : ℝ} (h : z < 1) :
    classifyDamping z = DampingClass.underdamped := by
  rw [classifyDamping, if_pos h]

lemma classifyDamping_of_crit {z : ℝ} (h1 : ¬ z < 1) (h2 : |z - 1| < 1 / 1000000) :
    classifyDamping z = DampingClass.criticallyDamped := by
  rw [classifyDamping, if_neg h1, if_pos h2]

lemma classifyDamping_of_over {z : ℝ} (h1 : ¬ z < 1) (h2 : ¬ |z - 1| < 1 / 1000000) :
    classifyDamping z = DampingClass.overdamped := by
  rw [classifyDamping, if_neg h1, if_neg h2]

lemma sqrt20_lb : (4472 / 1000 : ℝ) < Real.sqrt 20 :=
  (Real.lt_sqrt (by norm_num)).mpr (by norm_num)

lemma sqrt20_ub : Real.sqrt 20 < 44723 / 10000 :=
  (Real.sqrt_lt' (by norm_num)).mpr (by norm_num)

lemma sqrt1116_lb : (829 / 1000 : ℝ) < Real.sqrt (11 / 16) :=
  (Real.lt_sqrt (by norm_num)).mpr (by norm_num)

lemma sqrt1116_ub : Real.sqrt (11 / 16) < 8293 / 10000 :=
  (Real.sqrt_lt' (by norm_num)).mpr (by norm_num)

lemma zeta_1_5_20 : zeta 1 5 20 = 5 / (2 * Real.sqrt 20) := by
  rw [zeta, one_mul]

lemma twice_sqrt20_pos : (0 : ℝ) < 2 * Real.sqrt 20 := by
  have := sqrt20_lb
  linarith

lemma zeta_lb : (5589 / 10000 : ℝ) < zeta 1 5 20 := by
  rw [zeta_1_5_20, lt_div_iff₀ twice_sqrt20_pos]
  nlinarith [sqrt20_ub]

lemma zeta_ub : zeta 1 5 20 < 5591 / 10000 := by
  rw [zeta_1_5_20, div_lt_iff₀ twice_sqrt20_pos]
  nlinarith [sqrt20_lb]

lemma zeta_lt_one : zeta 1 5 20 < 1 := lt_trans zeta_ub (by norm_num)

lemma zeta_sq : zeta 1 5 20 ^ 2 = 5 / 16 := by
  rw [zeta_1_5_20, div_pow, mul_pow, Real.sq_sqrt (by norm_num : (0 : ℝ) ≤ 20)]
  norm_num

lemma omega_d_eq : omega_d 1 5 20 = Real.sqrt 20 * Real.sqrt (11 / 16) := by
  rw [omega_d, if_pos zeta_lt_one, omega_n, zeta_sq]
  norm_num

lemma omega_d_bounds : (37 / 10 : ℝ) < omega_d 1 5 20 ∧ omega_d 1 5 20 < 3709 / 1000 := by
  rw [omega_d_eq]
  have h20pos : (0 : ℝ) < Real.sqrt 20 := by linarith [sqrt20_lb]
  have h11pos : (0 : ℝ) < Real.sqrt (11 / 16) := by linarith [sqrt1116_lb]
  constructor
  · nlinarith [sqrt20_lb, sqrt1116_lb]
  · nlinarith [sqrt20_ub, sqrt1116_ub, sqrt20_lb, sqrt1116_lb]

lemma hasDerivAt_x_step (t : ℝ) : HasDerivAt x_step (v_step t) t := by
  have h2 : HasDerivAt (fun u : ℝ => -2 * u) (-2) t := by
    simpa using (hasDerivAt_id t).const_mul (-2 : ℝ)
  have h4 : HasDerivAt (fun u : ℝ => 4 * u) 4 t := by
    simpa using (hasDerivAt_id t).const_mul (4 : ℝ)
  have hE : HasDerivAt (fun u : ℝ => Real.exp (-2 * u)) (Real.exp (-2 * t) * -2) t :=
    h2.exp
  have hC : HasDerivAt (fun u : ℝ => Real.cos (4 * u) + 1 / 2 * Real.sin (4 * u))
      (-Real.sin (4 * t) * 4 + 1 / 2 * (Real.cos (4 * t) * 4)) t :=
    h4.cos.add (h4.sin.const_mul (1 / 2))
  have hall := ((hasDerivAt_const t (1 : ℝ)).sub (hE.mul hC)).div_const (20 : ℝ)
  convert hall using 1
  rw [v_step]
  ring

lemma hasDerivAt_v_step (t : ℝ) : HasDerivAt v_step (a_step t) t := by
  have h2 : HasDerivAt (fun u : ℝ => -2 * u) (-2) t := by
    simpa using (hasDerivAt_id t).const_mul (-2 : ℝ)
  have h4 : HasDerivAt (fun u : ℝ => 4 * u) 4 t := by
    simpa using (hasDerivAt_id t).const_mul (4 : ℝ)
  have hE : HasDerivAt (fun u : ℝ => Real.exp (-2 * u)) (Real.exp (-2 * t) * -2) t :=
    h2.exp
  have hall := (hE.mul h4.sin).const_mul (1 / 4 : ℝ)
  convert hall using 1
  rw [a_step]
  ring

/-- Claim C8 fails as stated: at `zeta = 1 + 1e-7`, both conditions of the
frozen rule hold (`|zeta - 1| < 1e-6` and `zeta > 1`), so two labels apply,
not exactly one; the code resolves the tie in branch order and reports
`critically damped`, not `overdamped`, even though `zeta > 1`. -/
theorem damping_classification_overlap_cex :
    (1 : ℝ) < 1 + 1 / 10000000 ∧
    |(1 + 1 / 10000000 : ℝ) - 1| < 1 / 1000000 ∧
    classifyDamping (1 + 1 / 10000000) = DampingClass.criticallyDamped ∧
    classifyDamping (1 + 1 / 10000000) ≠ DampingClass.overdamped := by
  have habs : |(1 + 1 / 10000000 : ℝ) - 1| < 1 / 1000000 := by
    rw [abs_of_nonneg (by norm_num)]
    norm_num
  refine ⟨by norm_num, habs, classifyDamping_of_crit (by norm_num) habs, ?_⟩
  rw [classifyDamping_of_crit (by norm_num) habs]
  decide

/-- Claim C8 amended: the classification behaves like the frozen rule with
ties broken in branch order, since `zeta < 1` is tested first: underdamped
exactly when `zeta < 1`; critically damped exactly when
`1 <= zeta < 1 + 1e-6`; overdamped exactly when `zeta >= 1 + 1e-6`.  For
every `zeta` exactly one of these mutually exclusive conditions, and hence
exactly one label, applies. -/
theorem damping_classification (z : ℝ) :
    (classifyDamping z = DampingClass.underdamped ↔ z < 1) ∧
    (classifyDamping z = DampingClass.criticallyDamped ↔
      1 ≤ z ∧ z < 1 + 1 / 1000000) ∧
    (classifyDamping z = DampingClass.overdamped ↔ 1 + 1 / 1000000 ≤ z) := by
  by_cases h1 : z < 1
  · rw [classifyDamping_of_lt h1]
    refine ⟨⟨fun _ => h1, fun _ => rfl⟩, ?_, ?_⟩
    · exact ⟨fun h => absurd h (by decide), fun h => absurd h1 (not_lt.mpr h.1)⟩
    · exact ⟨fun h => absurd h (by decide),
        fun h => absurd h1 (not_lt.mpr (by linarith))⟩
  · have hz1 : 1 ≤ z := not_lt.mp h1
    by_cases h2 : |z - 1| < 1 / 1000000
    · rw [classifyDamping_of_crit h1 h2]
      have hub : z < 1 + 1 / 1000000 := by
        have := (abs_lt.mp h2).2
        linarith
      refine ⟨⟨fun h => absurd h (by decide), fun h => absurd h h1⟩,
        ⟨fun _ => ⟨hz1, hub⟩, fun _ => rfl⟩,
        ⟨fun h => absurd h (by decide), fun h => absurd hub (not_lt.mpr h)⟩⟩
    · rw [classifyDamping_of_over h1 h2]
      have hge : 1 + 1 / 1000000 ≤ z := by
        rw [abs_of_nonneg (by linarith)] at h2
        have := not_lt.mp h2
        linarith
      refine ⟨⟨fun h => absurd h (by decide), fun h => absurd h h1⟩,
        ⟨fun h => absurd h (by decide), fun h => absurd h.2 (not_lt.mpr hge)⟩,
        ⟨fun _ => hge, fun _ => rfl⟩⟩

/-- Claim C7 fails in its numeric example: for `m=1, b=5, k=20` the damping
ratio squares to exactly `5/16`, so
`omega_d = sqrt(20)*sqrt(11/16) = sqrt(13.75) = 3.7081...`, which is more
than `0.01` away from the claimed `3.72`. -/
theorem omega_d_off_claim_cex :
    (1 / 100 : ℝ) < |omega_d 1 5 20 - 372 / 100| := by
  have h := omega_d_bounds
  rw [abs_sub_comm, abs_of_nonneg (by linarith [h.2])]
  linarith [h.2]

/-- Claim C7 amended: the modal properties are computed as
`omega_n = sqrt(k/m)`, `zeta = b/(2*sqrt(m*k))` and
`omega_d = omega_n*sqrt(1 - zeta^2)` when `zeta < 1` (else 0); for
`m=1, b=5, k=20` this yields `zeta` within `0.01` of `0.559` and `omega_d`
within `0.01` of `3.71` (not of `3.72`: the exact value is
`sqrt(13.75) = 3.7081...`). -/
theorem modal_properties_values :
    zeta 1 5 20 = 5 / (2 * Real.sqrt (1 * 20)) ∧
    zeta 1 5 20 < 1 ∧
    omega_d 1 5 20 = omega_n 1 20 * Real.sqrt (1 - zeta 1 5 20 ^ 2) ∧
    |zeta 1 5 20 - 559 / 1000| < 1 / 100 ∧
    |omega_d 1 5 20 - 371 / 100| < 1 / 100 := by
  refine ⟨rfl, zeta_lt_one, ?_, ?_, ?_⟩
  · rw [omega_d, if_pos zeta_lt_one]
  · rw [abs_lt]
    exact ⟨by linarith [zeta_lb], by linarith [zeta_ub]⟩
  · rw [abs_lt]
    have h := omega_d_bounds
    exact ⟨by linarith [h.1], by linarith [h.2]⟩

/-- Claim C9: the modelled displacement is the unit-step response of the
transfer function `1/(m s^2 + b s + k)` for `m=1, b=4, k=20` (it satisfies
`1*a + 4*v + 20*x = 1` with `x 0 = 0`, `v 0 = 0`, where `v` and `a` are its
first and second derivatives); it starts at `displacement[0] = x(0) = 0`
and its final sample `x(5)` is within `0.05` of the steady-state value
`1/k = 1/20`. -/
theorem step_response_endpoints :
    x_step 0 = 0 ∧ v_step 0 = 0 ∧
    (∀ t, HasDerivAt x_step (v_step t) t) ∧
    (∀ t, HasDerivAt v_step (a_step t) t) ∧
    (∀ t, 1 * a_step t + 4 * v_step t + 20 * x_step t = 1) ∧
    |x_step 5 - 1 / 20| < 1 / 20 := by
  refine ⟨?_, ?_, hasDerivAt_x_step, hasDerivAt_v_step, ?_, ?_⟩
  · rw [x_step]
    norm_num [Real.exp_zero, Real.cos_zero, Real.sin_zero]
  · rw [v_step]
    norm_num [Real.sin_zero]
  · intro t
    rw [x_step, v_step, a_step]
    ring
  · have h11 : (11 : ℝ) ≤ Real.exp 10 := by
      have := Real.add_one_le_exp (10 : ℝ)
      linarith
    have hexp : Real.exp (-10 : ℝ) ≤ 1 / 11 := by
      rw [Real.exp_neg]
      calc (Real.exp 10)⁻¹ ≤ (11 : ℝ)⁻¹ :=
            inv_anti₀ (by norm_num) h11
        _ = 1 / 11 := by norm_num
    have h5 : x_step 5 - 1 / 20
        = -(Real.exp (-10) * (Real.cos 20 + 1 / 2 * Real.sin 20)) / 20 := by
      rw [x_step, show ((-2 : ℝ) * 5) = -10 by norm_num,
        show ((4 : ℝ) * 5) = 20 by norm_num]
      ring
    have hC : |Real.cos 20 + 1 / 2 * Real.sin 20| ≤ 3 / 2 := by
      calc |Real.cos 20 + 1 / 2 * Real.sin 20|
          ≤ |Real.cos 20| + |1 / 2 * Real.sin 20| := abs_add _ _
        _ ≤ 1 + 1 / 2 * 1 := by
            have hcos := Real.abs_cos_le_one 20
            have hsin := Real.abs_sin_le_one 20
            rw [abs_mul, abs_of_nonneg (by norm_num : (0 : ℝ) ≤ 1 / 2)]
            have : (1 / 2 : ℝ) * |Real.sin 20| ≤ 1 / 2 * 1 := by linarith
            linarith
        _ = 3 / 2 := by norm_num
    have hprod : Real.exp (-10 : ℝ) * |Real.cos 20 + 1 / 2 * Real.sin 20|
        ≤ 1 / 11 * (3 / 2) :=
      mul_le_mul hexp hC (abs_nonneg _) (by norm_num)
    rw [h5, abs_div, abs_neg, abs_mul, Real.abs_exp,
      abs_of_pos (by norm_num : (0 : ℝ) < 20)]
    linarith [hprod]

end ControlsStudy
